import Mathlib

/-!
Verification development for the MayaSpeechifier Go client.

The Go sources are shallowly embedded:
- `AppConfig`, `SynthesizeRequest`, `ProcessResult` mirror the structs of the
  client (`worker.go` / `main.go`).
- `processSingleFile` is a faithful translation of the function of the same
  name: the file system, the network and the writability of destination paths
  are passed in as an explicit environment `Env`; the outcome records the
  returned output path, the returned error (one constructor of `ProcError`
  per `return` site of the Go function), the HTTP requests issued and the
  file writes performed.
- The worker pool `processFiles` is embedded as the relation `PoolRun`: a run
  distributes the job list over `min workers (len files)` workers (each
  worker receives a subsequence of the jobs channel, together they exhaust
  it), each worker processes its jobs in order, and the collected result list
  and the global order of file writes are interleavings of the per-worker
  sequences.  This captures exactly the executions the Go scheduler allows.
- `getOutputPath` is translated together with the Go standard library
  functions it calls (`filepath.Ext`, `strings.TrimSuffix`).
- `runExitCode` mirrors `run`/`main` of `main.go`: `run` returns an error
  only when `discoverFiles` fails; per-job failures never propagate, and
  `main` exits 1 exactly when `run` returns an error.
-/

/-- `AppConfig` of `main.go` (field for field; `Timeout` is a
`time.Duration`, modelled as a `Nat` of nanoseconds). `main` validates
`Workers ≥ 1` and `Timeout ≥ 1s` before `run` is called. -/
structure AppConfig where
  Workers : Nat
  ScanPath : String
  Recursive : Bool
  Verbose : Bool
  ServerURL : String
  Timeout : Nat
deriving DecidableEq

/-- `SynthesizeRequest` of `worker.go`: json tags `text` and
`voice_description,omitempty`. -/
structure SynthesizeRequest where
  Text : String
  VoiceDescription : Option String
deriving DecidableEq

/-- One constructor per error `return` site of `processSingleFile`
(`worker.go`): the Go code builds each error with `fmt.Errorf`; the
constructor is the classification, the carried data feeds the message. -/
inductive ProcError where
  | readFile (e : String)
  | marshal (e : String)
  | sendRequest (e : String)
  | serverStatus (status : Nat) (body : String)
  | readResponse (e : String)
  | writeFile (e : String)
deriving DecidableEq

/-- The error classification: which `return` site of `processSingleFile`
produced the error.  Two errors are distinguishable as classes iff their
indices differ. -/
def errClass : ProcError → Nat
  | .readFile _ => 0
  | .marshal _ => 1
  | .sendRequest _ => 2
  | .serverStatus _ _ => 3
  | .readResponse _ => 4
  | .writeFile _ => 5

/-- The `fmt.Errorf` format strings of `processSingleFile`, rendered. -/
def errorMessage : ProcError → String
  | .readFile e => "failed to read file: " ++ e
  | .marshal e => "failed to marshal request: " ++ e
  | .sendRequest e => "failed to send request: " ++ e
  | .serverStatus status body =>
      "server returned status " ++ toString status ++ ": " ++ body
  | .readResponse e => "failed to read response: " ++ e
  | .writeFile e => "failed to write MP3 file: " ++ e

/-- `ProcessResult` of `worker.go` (the wall-clock `Duration` field is not
modelled). -/
structure ProcessResult where
  FilePath : String
  OutputPath : String
  Error : Option ProcError
deriving DecidableEq

/-- `os.IsPathSeparator` on Windows (the documented target platform of the
client): both slash and backslash separate path elements. -/
def isPathSeparator (c : Char) : Bool :=
  c = '/' || c = '\\'

/-- Helper for `filepathExt`: scans the reversed character list of the path;
`acc` holds (in forward order) the characters already passed over.  Stops
with `""` at a path separator or at the start, and with `'.' :: acc` at the
first dot, exactly like the loop of Go's `filepath.Ext`. -/
def extRevAux : List Char → List Char → List Char
  | [], _ => []
  | c :: rest, acc =>
      if isPathSeparator c then []
      else if c = '.' then c :: acc
      else extRevAux rest (c :: acc)

/-- Go's `filepath.Ext`: the suffix of the last element of `path` beginning
at the final dot; empty if there is no dot. -/
def filepathExt (path : String) : String :=
  ⟨extRevAux path.data.reverse []⟩

/-- Go's `strings.TrimSuffix`: drops `suffix` from the end of `s` when
present, otherwise returns `s` unchanged. -/
def trimSuffix (s suffix : String) : String :=
  if suffix.data.isSuffixOf s.data then
    ⟨s.data.take (s.data.length - suffix.data.length)⟩
  else s

/-- `getOutputPath` of `main.go`:
`strings.TrimSuffix(inputPath, filepath.Ext(inputPath)) + ".mp3"`. -/
def getOutputPath (inputPath : String) : String :=
  trimSuffix inputPath (filepathExt inputPath) ++ ".mp3"

/-- Lower-case hex digit, as used by `encoding/json` escapes. -/
def hexDigitChar (n : Nat) : Char :=
  if n < 10 then Char.ofNat (48 + n) else Char.ofNat (87 + n)

/-- The escaping `encoding/json` applies to one character of a string value
(default encoder: HTML-escaping on). -/
def escapeChar (c : Char) : List Char :=
  if c = '"' then ['\\', '"']
  else if c = '\\' then ['\\', '\\']
  else if c = '\n' then ['\\', 'n']
  else if c = '\r' then ['\\', 'r']
  else if c = '\t' then ['\\', 't']
  else if c.toNat < 32 then
    ['\\', 'u', '0', '0', hexDigitChar (c.toNat / 16), hexDigitChar (c.toNat % 16)]
  else if c = '<' then ['\\', 'u', '0', '0', '3', 'c']
  else if c = '>' then ['\\', 'u', '0', '0', '3', 'e']
  else if c = '&' then ['\\', 'u', '0', '0', '2', '6']
  else if c.toNat = 8232 then ['\\', 'u', '2', '0', '2', '8']
  else if c.toNat = 8233 then ['\\', 'u', '2', '0', '2', '9']
  else [c]

/-- `encoding/json` serialization of a string value. -/
def jsonEscapeString (s : String) : String :=
  ⟨'"' :: (s.data.map escapeChar).flatten ++ ['"']⟩

/-- `json.Marshal` of a `SynthesizeRequest`: the `voice_description` key is
emitted only when the pointer is non-nil (`omitempty` json tag). -/
def marshalSynthesizeRequest (r : SynthesizeRequest) : String :=
  match r.VoiceDescription with
  | none => "\x7b\"text\":" ++ jsonEscapeString r.Text ++ "\x7d"
  | some v =>
      "\x7b\"text\":" ++ jsonEscapeString r.Text ++
        ",\"voice_description\":" ++ jsonEscapeString v ++ "\x7d"

/-- Outcome of `client.Post` followed by the body reads: either the call
itself fails (`netErr`, with `isTimeout` telling whether Go's underlying
`url.Error` reports a timeout), or a response arrives with a status, the
bytes that could be read from its body, and an optional error that ended
the body read. -/
inductive FetchOutcome where
  | netErr (msg : String) (isTimeout : Bool)
  | resp (status : Nat) (body : String) (bodyErr : Option String)

/-- The ambient world of one run: initial file contents, the OS message for
an unreadable path, the (deterministic) network as a map from url and
request body to an outcome, and the write error (if any) a destination path
would produce. -/
structure Env where
  fs0 : String → Option String
  readErrMsg : String → String
  net : String → String → FetchOutcome
  writeErr : String → Option String

/-- What one `processSingleFile` call did: the returned output path (`""` on
every error), the returned error, the HTTP requests issued (url and body),
and the file writes performed (path and contents). -/
structure SingleOutcome where
  outputPath : String
  error : Option ProcError
  requests : List (String × String)
  writes : List (String × String)
deriving DecidableEq

/-- `processSingleFile` of `worker.go`, step for step: read the file
(`ReadError` if unreadable, no request issued), marshal the request (only
the `text` field, the voice pointer is nil), POST to
`{server_url}/synthesize`, fail on a transport error, fail on a non-200
status carrying status and body in the message, fail if the body read
fails, and only then write the fully buffered bytes to `getOutputPath`. -/
def processSingleFile (filePath : String) (env : Env) (config : AppConfig) :
    SingleOutcome :=
  match env.fs0 filePath with
  | none => ⟨"", some (.readFile (env.readErrMsg filePath)), [], []⟩
  | some content =>
    let jsonData := marshalSynthesizeRequest ⟨content, none⟩
    let url := config.ServerURL ++ "/synthesize"
    match env.net url jsonData with
    | .netErr m _ => ⟨"", some (.sendRequest m), [(url, jsonData)], []⟩
    | .resp status body bodyErr =>
      if status = 200 then
        match bodyErr with
        | some e => ⟨"", some (.readResponse e), [(url, jsonData)], []⟩
        | none =>
          let outputPath := getOutputPath filePath
          match env.writeErr outputPath with
          | some e => ⟨"", some (.writeFile e), [(url, jsonData)], []⟩
          | none => ⟨outputPath, none, [(url, jsonData)], [(outputPath, body)]⟩
      else ⟨"", some (.serverStatus status body), [(url, jsonData)], []⟩

/-- The `ProcessResult` the worker loop builds for one job (`worker.go`
lines 95-104): `FilePath` is the job, `OutputPath` and `Error` are the two
return values of `processSingleFile`. -/
def jobResult (env : Env) (config : AppConfig) (filePath : String) :
    ProcessResult :=
  let o := processSingleFile filePath env config
  ⟨filePath, o.outputPath, o.error⟩

/-- The file writes performed while processing one job. -/
def jobWrites (env : Env) (config : AppConfig) (filePath : String) :
    List (String × String) :=
  (processSingleFile filePath env config).writes

/-- `os.WriteFile`: the destination path now holds exactly the written
bytes; other paths are untouched. -/
def applyWrite (fs : String → Option String) (w : String × String) :
    String → Option String :=
  fun x => if x = w.1 then some w.2 else fs x

/-- Channel interleaving: `Interleaves ls out` holds when `out` can be
split, in order, into the per-consumer (or per-producer) sequences `ls` -
each step removes the head of one of the sequences.  It models both
directions of a Go channel used by several goroutines: the jobs each worker
receives are jointly an interleaving decomposition of the sent job list,
and the collected results are an interleaving of the per-worker result
sequences. -/
inductive Interleaves {α : Type} : List (List α) → List α → Prop where
  | done (ls : List (List α)) (h : ∀ l ∈ ls, l = []) : Interleaves ls []
  | step (ls : List (List α)) (i : Nat) (hi : i < ls.length) (x : α)
      (tl : List α) (out : List α)
      (hget : ls.get ⟨i, hi⟩ = x :: tl)
      (hrest : Interleaves (ls.set i tl) out) :
      Interleaves ls (x :: out)

/-- `processFiles` clamps the worker count:
`if numWorkers > len(files) then numWorkers = len(files)`. -/
def numWorkers (config : AppConfig) (files : List String) : Nat :=
  min config.Workers files.length

/-- One possible execution of `processFiles files config` (`worker.go`): the
jobs channel hands each worker a subsequence of `files` and together the
workers drain it (`distrib`); each worker runs `processSingleFile` on its
jobs in order and sends one `ProcessResult` per job, and the result list
collected after `wg.Wait`/`close(results)` is an interleaving of the
per-worker result sequences (`resultsInter`); the global order of the file
writes is likewise an interleaving of the per-worker write sequences
(`writesInter`). -/
structure PoolRun (files : List String) (env : Env) (config : AppConfig) where
  jobLists : List (List String)
  results : List ProcessResult
  writeSeq : List (String × String)
  workers_eq : jobLists.length = numWorkers config files
  distrib : Interleaves jobLists files
  resultsInter :
    Interleaves (jobLists.map fun l => l.map (jobResult env config)) results
  writesInter :
    Interleaves (jobLists.map fun l => (l.map (jobWrites env config)).flatten)
      writeSeq

/-- The file system after a pool run: the writes applied, in their global
order, to the initial file system. -/
def fsFinal {files : List String} {env : Env} {config : AppConfig}
    (r : PoolRun files env config) : String → Option String :=
  r.writeSeq.foldl applyWrite env.fs0

/-- What `discoverFiles` handed to `run`: either a scan error or the found
file list. -/
inductive ScanOutcome where
  | err (msg : String)
  | ok (files : List String)

/-- The error value `run` (`main.go`) returns: non-nil only when
`discoverFiles` fails.  Zero files found, and any mix of per-job failures,
both fall through to `return nil` (`processFiles` always returns a nil
error). -/
def runReturn (scan : ScanOutcome) : Option String :=
  match scan with
  | .err m => some ("failed to scan files: " ++ m)
  | .ok _ => none

/-- The process exit status `main` (`main.go`) produces once `run` is
reached: `os.Exit(1)` when `run` returns an error, normal termination
(status 0) otherwise. -/
def runExitCode (scan : ScanOutcome) : Nat :=
  match runReturn scan with
  | some _ => 1
  | none => 0

/-- `printSummary` partitions the results by `Error == nil`; the successful
count. -/
def countSuccessful (results : List ProcessResult) : Nat :=
  results.countP (fun r => r.Error = none)

/-- Replacing the element at index `i` changes a sum of images by swapping
the old element's contribution for the new one. -/
theorem sum_map_set {α M : Type} [AddCommMonoid M] (f : α → M) :
    ∀ (ls : List α) (i : Nat) (hi : i < ls.length) (y : α),
      ((ls.set i y).map f).sum + f (ls.get ⟨i, hi⟩) = (ls.map f).sum + f y := by
  intro ls
  induction ls with
  | nil => intro i hi y; simp at hi
  | cons a t ih =>
    intro i hi y
    cases i with
    | zero =>
      simp only [List.set_cons_zero, List.map_cons, List.sum_cons,
        List.get_cons_zero]
      abel
    | succ n =>
      have hn : n < t.length := by simpa using hi
      simp only [List.set_cons_succ, List.map_cons, List.sum_cons,
        List.get_cons_succ, add_assoc]
      rw [ih n hn y]

/-- An interleaving neither loses nor duplicates elements: summing any
function over the interleaved list equals summing it over the pieces. -/
theorem interleaves_map_sum {α M : Type} [AddCancelCommMonoid M] (f : α → M)
    {ls : List (List α)} {out : List α} (h : Interleaves ls out) :
    (out.map f).sum = (ls.map fun l => (l.map f).sum).sum := by
  induction h with
  | done ls hnil =>
    simp only [List.map_nil, List.sum_nil]
    symm
    apply List.sum_eq_zero
    intro x hx
    rcases List.mem_map.1 hx with ⟨l, hl, rfl⟩
    rw [hnil l hl]
    simp
  | step ls i hi x tl out hget hrest ih =>
    have hset := sum_map_set (fun l => (l.map f).sum) ls i hi tl
    rw [hget] at hset
    simp only [List.map_cons, List.sum_cons] at hset ⊢
    rw [ih]
    have h2 : (f x + ((ls.set i tl).map fun l => (l.map f).sum).sum)
          + (tl.map f).sum
        = ((ls.map fun l => (l.map f).sum).sum) + (tl.map f).sum := by
      rw [← hset]
      abel
    exact add_right_cancel h2

/-- Summing singleton multisets over a list recovers the list as a
multiset. -/
theorem sum_map_singleton {α : Type} (l : List α) :
    (l.map fun a => ({a} : Multiset α)).sum = Multiset.ofList l := by
  induction l with
  | nil => simp
  | cons a t ih => simp [ih]

/-- The multiset of an interleaved list is the sum of the multisets of its
pieces. -/
theorem interleaves_coe {α : Type} {ls : List (List α)} {out : List α}
    (h : Interleaves ls out) :
    Multiset.ofList out = (ls.map fun l => Multiset.ofList l).sum := by
  have hm := interleaves_map_sum (fun a => ({a} : Multiset α)) h
  rw [sum_map_singleton] at hm
  rw [hm]
  have hmc : (ls.map fun l => (l.map fun a => ({a} : Multiset α)).sum)
      = ls.map fun l => Multiset.ofList l := by
    apply List.map_congr_left
    intro l _
    exact sum_map_singleton l
  rw [hmc]

/-- The multiset of a flattened list of lists is the sum of the pieces'
multisets. -/
theorem ofList_flatten {β : Type} :
    ∀ L : List (List β),
      Multiset.ofList L.flatten = (L.map fun l => Multiset.ofList l).sum := by
  intro L
  induction L with
  | nil => simp
  | cons a t ih =>
    simp only [List.flatten_cons, List.map_cons, List.sum_cons, ← ih]
    exact (Multiset.coe_add a t.flatten).symm

/-- In every pool run the collected results are, as a multiset, exactly one
`jobResult` per input file: the scheduling (how the jobs channel divided the
jobs among the workers, and in which order the results arrived) is
invisible. -/
theorem poolRun_results_coe {files : List String} {env : Env}
    {config : AppConfig} (r : PoolRun files env config) :
    Multiset.ofList r.results
      = Multiset.ofList (files.map (jobResult env config)) := by
  have h2 := interleaves_map_sum
    (fun p => ({jobResult env config p} : Multiset ProcessResult)) r.distrib
  calc Multiset.ofList r.results
      = ((r.jobLists.map fun l => l.map (jobResult env config)).map
          (fun l => (l.map fun pr => ({pr} : Multiset ProcessResult)).sum)).sum := by
        have h1 := interleaves_map_sum
          (fun pr => ({pr} : Multiset ProcessResult)) r.resultsInter
        rw [sum_map_singleton] at h1
        exact h1
    _ = (r.jobLists.map
          (fun l => (l.map fun p =>
            ({jobResult env config p} : Multiset ProcessResult)).sum)).sum := by
        apply congrArg List.sum
        rw [List.map_map]
        apply List.map_congr_left
        intro l _
        show ((l.map (jobResult env config)).map
          fun pr => ({pr} : Multiset ProcessResult)).sum = _
        rw [List.map_map]
        rfl
    _ = ((files.map fun p =>
          ({jobResult env config p} : Multiset ProcessResult))).sum := h2.symm
    _ = ((files.map (jobResult env config)).map
          fun a => ({a} : Multiset ProcessResult)).sum := by
        rw [List.map_map]
        rfl
    _ = Multiset.ofList (files.map (jobResult env config)) :=
        sum_map_singleton _

/-- In every pool run the performed writes are, as a multiset, exactly the
writes of each job: scheduling only permutes them. -/
theorem poolRun_writes_coe {files : List String} {env : Env}
    {config : AppConfig} (r : PoolRun files env config) :
    Multiset.ofList r.writeSeq
      = Multiset.ofList (files.map (jobWrites env config)).flatten := by
  have h2 := interleaves_map_sum
    (fun p => Multiset.ofList (jobWrites env config p)) r.distrib
  calc Multiset.ofList r.writeSeq
      = ((r.jobLists.map fun l => (l.map (jobWrites env config)).flatten).map
          (fun l => Multiset.ofList l)).sum := interleaves_coe r.writesInter
    _ = (r.jobLists.map
          (fun l => (l.map fun p =>
            Multiset.ofList (jobWrites env config p)).sum)).sum := by
        apply congrArg List.sum
        rw [List.map_map]
        apply List.map_congr_left
        intro l _
        show Multiset.ofList (l.map (jobWrites env config)).flatten = _
        rw [ofList_flatten, List.map_map]
        rfl
    _ = ((files.map fun p =>
          Multiset.ofList (jobWrites env config p))).sum := h2.symm
    _ = Multiset.ofList (files.map (jobWrites env config)).flatten := by
        rw [ofList_flatten, List.map_map]
        rfl

/-- The value the write sequence `l` leaves at path `x`: the last content
written to `x`, if any. -/
def lastVal (l : List (String × String)) (x : String) : Option String :=
  (l.filterMap fun w => if w.1 = x then some w.2 else none).getLast?

/-- Folding the writes over a file system reads back, at each path, the last
write to that path (or the initial content when the path was never
written). -/
theorem foldl_applyWrite (x : String) :
    ∀ (l : List (String × String)) (fs : String → Option String),
      (l.foldl applyWrite fs) x = (lastVal l x).elim (fs x) some := by
  intro l
  induction l with
  | nil => intro fs; simp [lastVal]
  | cons w t ih =>
    intro fs
    rw [List.foldl_cons, ih]
    by_cases hw : w.1 = x
    · have hsel : lastVal (w :: t) x
          = (w.2 :: (t.filterMap fun v => if v.1 = x then some v.2 else none)).getLast? := by
        simp [lastVal, List.filterMap_cons, hw]
      cases hsel2 : (t.filterMap fun v => if v.1 = x then some v.2 else none) with
      | nil =>
        have : lastVal t x = none := by simp [lastVal, hsel2]
        rw [this, hsel, hsel2]
        simp [applyWrite, hw.symm]
      | cons c rest =>
        have h1 : lastVal t x = (c :: rest).getLast? := by
          simp [lastVal, hsel2]
        rw [h1, hsel, hsel2, List.getLast?_cons_cons]
        cases hgl : (c :: rest).getLast? with
        | none => simp at hgl
        | some v => simp
    · have hsel : lastVal (w :: t) x = lastVal t x := by
        simp [lastVal, List.filterMap_cons, hw]
      rw [hsel]
      have hfw : applyWrite fs w x = fs x := by
        have hxw : ¬(x = w.1) := fun h => hw h.symm
        simp [applyWrite, hxw]
      rw [hfw]

/-- Two write sequences that are permutations of one another and never write
two different contents to the same path produce the same final file
system. -/
theorem foldl_applyWrite_eq_of {l1 l2 : List (String × String)}
    (fs : String → Option String)
    (hperm : Multiset.ofList l1 = Multiset.ofList l2)
    (hcons : ∀ a ∈ l1, ∀ b ∈ l1, a.1 = b.1 → a.2 = b.2) :
    ∀ x, (l1.foldl applyWrite fs) x = (l2.foldl applyWrite fs) x := by
  intro x
  rw [foldl_applyWrite, foldl_applyWrite]
  have hmem : ∀ a : String × String, a ∈ l1 ↔ a ∈ l2 := by
    intro a
    constructor
    · intro h
      show a ∈ Multiset.ofList l2
      exact hperm ▸ h
    · intro h
      show a ∈ Multiset.ofList l1
      exact hperm.symm ▸ h
  have hpair : ∀ {l : List (String × String)} {c : String},
      lastVal l x = some c → ∃ a ∈ l, a.1 = x ∧ a.2 = c := by
    intro l c hl
    rcases List.mem_filterMap.1
        (List.mem_of_mem_getLast? (Option.mem_def.mpr hl)) with ⟨a, ha, haeq⟩
    by_cases h : a.1 = x
    · rw [if_pos h] at haeq
      exact ⟨a, ha, h, Option.some.inj haeq⟩
    · rw [if_neg h] at haeq
      exact Option.noConfusion haeq
  have hval : lastVal l1 x = lastVal l2 x := by
    cases h1 : lastVal l1 x with
    | none =>
      have hnone : ∀ a ∈ l1, (if a.1 = x then some a.2 else none) = none :=
        List.filterMap_eq_nil_iff.1 (List.getLast?_eq_none_iff.1 h1)
      cases h2 : lastVal l2 x with
      | none => rfl
      | some c =>
        exfalso
        rcases hpair h2 with ⟨b, hb2, hbx, _⟩
        have := hnone b ((hmem b).2 hb2)
        rw [if_pos hbx] at this
        exact Option.noConfusion this
    | some c =>
      rcases hpair h1 with ⟨a, ha1, hax, hac⟩
      cases h2 : lastVal l2 x with
      | none =>
        exfalso
        have hnone : ∀ b ∈ l2, (if b.1 = x then some b.2 else none) = none :=
          List.filterMap_eq_nil_iff.1 (List.getLast?_eq_none_iff.1 h2)
        have := hnone a ((hmem a).1 ha1)
        rw [if_pos hax] at this
        exact Option.noConfusion this
      | some c2 =>
        rcases hpair h2 with ⟨b, hb2, hbx, hbc⟩
        have heq := hcons a ha1 b ((hmem b).2 hb2) (hax.trans hbx.symm)
        rw [hac, hbc] at heq
        rw [heq]
  rw [hval]

/-- `filepath.Ext`'s scan only ever returns a suffix of the text it was
given (stated over the reversed-list helper). -/
theorem extRevAux_suffix :
    ∀ (l acc : List Char), (extRevAux l acc) <:+ (l.reverse ++ acc) := by
  intro l
  induction l with
  | nil =>
    intro acc
    exact List.nil_suffix
  | cons c rest ih =>
    intro acc
    rw [List.reverse_cons, List.append_assoc]
    by_cases h1 : isPathSeparator c
    · simp only [extRevAux, h1, if_true]
      exact List.nil_suffix
    · by_cases h2 : c = '.'
      · simp only [extRevAux, h1, h2, if_false, if_true, Bool.false_eq_true]
        exact ⟨rest.reverse, rfl⟩
      · simp only [extRevAux, h1, h2, if_false, Bool.false_eq_true]
        exact ih (c :: acc)

/-- The extension `filepath.Ext` computes is a suffix of the path. -/
theorem filepathExt_suffix (p : String) : (filepathExt p).data <:+ p.data := by
  have h := extRevAux_suffix p.data.reverse []
  rw [List.reverse_reverse, List.append_nil] at h
  exact h

/-- `strings.TrimSuffix` at an actual suffix: it removes exactly that
suffix. -/
theorem trimSuffix_data (s suffix : String) (h : suffix.data <:+ s.data) :
    ∃ t, t ++ suffix.data = s.data ∧ trimSuffix s suffix = ⟨t⟩ := by
  rcases h with ⟨t, ht⟩
  refine ⟨t, ht, ?_⟩
  unfold trimSuffix
  rw [if_pos (List.isSuffixOf_iff_suffix.2 ⟨t, ht⟩)]
  congr 1
  rw [← ht]
  have hlen : (t ++ suffix.data).length - suffix.data.length = t.length := by
    simp
  rw [hlen]
  exact List.take_left t suffix.data

/-- Every path splits as a stem followed by its `filepath.Ext` extension,
and `getOutputPath` is that stem with `.mp3` appended. -/
theorem getOutputPath_stem (p : String) :
    ∃ stem : String, p = stem ++ filepathExt p
      ∧ getOutputPath p = stem ++ ".mp3" := by
  rcases trimSuffix_data p (filepathExt p) (filepathExt_suffix p)
    with ⟨t, ht, htrim⟩
  refine ⟨⟨t⟩, ?_, ?_⟩
  · apply String.ext
    rw [String.data_append]
    exact ht.symm
  · unfold getOutputPath
    rw [htrim]

/-- `processSingleFile` reads only the `ServerURL` field of the config (the
timeout lives in the `http.Client`, modelled inside `Env.net`). -/
theorem processSingleFile_congr (p : String) (env : Env)
    {cfgA cfgB : AppConfig} (h : cfgA.ServerURL = cfgB.ServerURL) :
    processSingleFile p env cfgA = processSingleFile p env cfgB := by
  unfold processSingleFile
  rw [h]

/-- Configs agreeing on the server url give each job the same result. -/
theorem jobResult_congr (p : String) (env : Env) {cfgA cfgB : AppConfig}
    (h : cfgA.ServerURL = cfgB.ServerURL) :
    jobResult env cfgA p = jobResult env cfgB p := by
  unfold jobResult
  rw [processSingleFile_congr p env h]

/-- Configs agreeing on the server url give each job the same writes. -/
theorem jobWrites_congr (p : String) (env : Env) {cfgA cfgB : AppConfig}
    (h : cfgA.ServerURL = cfgB.ServerURL) :
    jobWrites env cfgA p = jobWrites env cfgB p := by
  unfold jobWrites
  rw [processSingleFile_congr p env h]

/-- A job either writes nothing (any failure) or writes exactly one file,
at its own `getOutputPath`. -/
theorem jobWrites_shape (env : Env) (config : AppConfig) (p : String) :
    jobWrites env config p = []
      ∨ ∃ c, jobWrites env config p = [(getOutputPath p, c)] := by
  unfold jobWrites processSingleFile
  cases env.fs0 p with
  | none => exact Or.inl rfl
  | some content =>
    dsimp only
    cases env.net (config.ServerURL ++ "/synthesize")
        (marshalSynthesizeRequest ⟨content, none⟩) with
    | netErr m t => exact Or.inl rfl
    | resp status body bodyErr =>
      dsimp only
      by_cases hst : status = 200
      · rw [if_pos hst]
        cases bodyErr with
        | some e => exact Or.inl rfl
        | none =>
          dsimp only
          cases env.writeErr (getOutputPath p) with
          | some e => exact Or.inl rfl
          | none => exact Or.inr ⟨body, rfl⟩
      · rw [if_neg hst]
        exact Or.inl rfl

/-- Pairwise injectivity of `getOutputPath` over a list gives injectivity
for arbitrary members. -/
theorem pairwise_out_inj {l : List String}
    (h : l.Pairwise fun p q => getOutputPath p = getOutputPath q → p = q) :
    ∀ p ∈ l, ∀ q ∈ l, getOutputPath p = getOutputPath q → p = q := by
  induction l with
  | nil =>
    intro p hp
    exact absurd hp (List.not_mem_nil p)
  | cons a t ih =>
    rcases List.pairwise_cons.1 h with ⟨ha, ht⟩
    intro p hp q hq hpq
    rcases List.mem_cons.1 hp with rfl | hp2
    · rcases List.mem_cons.1 hq with rfl | hq2
      · rfl
      · exact ha q hq2 hpq
    · rcases List.mem_cons.1 hq with rfl | hq2
      · exact (ha p hp2 hpq.symm).symm
      · exact ih ht p hp2 q hq2 hpq

/-- One worker receiving every job is a valid interleaving. -/
theorem interleaves_single {α : Type} : ∀ l : List α, Interleaves [l] l := by
  intro l
  induction l with
  | nil => exact .done _ (by simp)
  | cons a t ih => exact .step [a :: t] 0 (by simp) a t t rfl ih

/-- Two one-job workers, results arriving in job order. -/
theorem interleaves_pair {α : Type} (x y : α) :
    Interleaves [[x], [y]] [x, y] := by
  refine .step [[x], [y]] 0 (by simp) x [] [y] rfl ?_
  refine .step [[], [y]] 1 (by simp) y [] [] rfl ?_
  exact .done _ (by simp)

/-- Two one-job workers, the second finishing first. -/
theorem interleaves_pair_swap {α : Type} (x y : α) :
    Interleaves [[x], [y]] [y, x] := by
  refine .step [[x], [y]] 1 (by simp) y [] [x] rfl ?_
  refine .step [[x], []] 0 (by simp) x [] [] rfl ?_
  exact .done _ (by simp)

/-- A validated one-worker config. -/
def cfg1 : AppConfig :=
  ⟨1, "K:\\books", false, false, "http://srv", 30000000000⟩

/-- The same config with two workers. -/
def cfg2 : AppConfig :=
  ⟨2, "K:\\books", false, false, "http://srv", 30000000000⟩

/-- A disk holding two sources whose names differ only in the case of the
extension: both map to the destination `a.mp3`. -/
def fsTwo : String → Option String := fun p =>
  if p = "a.txt" then some "1" else if p = "a.TXT" then some "2" else none

/-- A deterministic endpoint echoing the request body back as the audio
bytes, every destination writable. -/
def envEcho : Env :=
  ⟨fsTwo, fun _ => "open: no such file or directory",
    fun _ body => .resp 200 body none, fun _ => none⟩

/-- A deterministic endpoint answering 500 with body `boom` to every
request. -/
def env500 : Env :=
  ⟨fsTwo, fun _ => "open: no such file or directory",
    fun _ _ => .resp 500 "boom" none, fun _ => none⟩

/-- The transport error text Go produces when the client timeout expires. -/
def timeoutErrMsg : String :=
  "Post \"http://srv/synthesize\": context deadline exceeded (Client.Timeout exceeded while awaiting headers)"

/-- The transport error text Go produces for a refused connection. -/
def refusedErrMsg : String :=
  "Post \"http://srv/synthesize\": dial tcp 127.0.0.1:8000: connect: connection refused"

/-- A network where every call runs into the configured timeout. -/
def envTimeoutCase : Env :=
  ⟨fsTwo, fun _ => "open: no such file or directory",
    fun _ _ => .netErr timeoutErrMsg true, fun _ => none⟩

/-- A network where every connection is refused. -/
def envRefusedCase : Env :=
  ⟨fsTwo, fun _ => "open: no such file or directory",
    fun _ _ => .netErr refusedErrMsg false, fun _ => none⟩

/-- The two colliding jobs. -/
def filesAA : List String := ["a.txt", "a.TXT"]

/-- The write job `a.txt` performs under the echo endpoint. -/
def wA : String × String := ("a.mp3", "\x7b\"text\":\"1\"\x7d")

/-- The write job `a.TXT` performs under the echo endpoint. -/
def wB : String × String := ("a.mp3", "\x7b\"text\":\"2\"\x7d")

/-- The (only possible) one-worker run on the two colliding jobs: both jobs
processed in order by the single worker. -/
def runSeq : PoolRun filesAA envEcho cfg1 where
  jobLists := [filesAA]
  results := filesAA.map (jobResult envEcho cfg1)
  writeSeq := [wA, wB]
  workers_eq := by decide
  distrib := interleaves_single filesAA
  resultsInter := interleaves_single _
  writesInter := by
    have h : ([filesAA].map
        fun l => (l.map (jobWrites envEcho cfg1)).flatten) = [[wA, wB]] := by
      decide
    rw [h]
    exact interleaves_single _

/-- A two-worker run on the colliding jobs in which worker 2 (holding
`a.TXT`) writes before worker 1 (holding `a.txt`): a schedule the Go
runtime is free to produce. -/
def runSwap : PoolRun filesAA envEcho cfg2 where
  jobLists := [["a.txt"], ["a.TXT"]]
  results := [jobResult envEcho cfg2 "a.txt", jobResult envEcho cfg2 "a.TXT"]
  writeSeq := [wB, wA]
  workers_eq := by decide
  distrib := interleaves_pair "a.txt" "a.TXT"
  resultsInter := interleaves_pair _ _
  writesInter := by
    have h : ([["a.txt"], ["a.TXT"]].map
        fun l => (l.map (jobWrites envEcho cfg2)).flatten) = [[wA], [wB]] := by
      decide
    rw [h]
    exact interleaves_pair_swap wA wB

/-- A one-worker, one-job run under the echo endpoint. -/
def runOne : PoolRun ["a.txt"] envEcho cfg1 where
  jobLists := [["a.txt"]]
  results := ["a.txt"].map (jobResult envEcho cfg1)
  writeSeq := (["a.txt"].map (jobWrites envEcho cfg1)).flatten
  workers_eq := by decide
  distrib := interleaves_single _
  resultsInter := interleaves_single _
  writesInter := interleaves_single _

/-- The same single job run under the two-worker config (the pool clamps to
one worker). -/
def runOneW2 : PoolRun ["a.txt"] envEcho cfg2 where
  jobLists := [["a.txt"]]
  results := ["a.txt"].map (jobResult envEcho cfg2)
  writeSeq := (["a.txt"].map (jobWrites envEcho cfg2)).flatten
  workers_eq := by decide
  distrib := interleaves_single _
  resultsInter := interleaves_single _
  writesInter := interleaves_single _

/-- C5: for every source path the destination computed by `getOutputPath`
is the source path with its final extension (in the sense of
`filepath.Ext`, the function the code calls) replaced by `.mp3`; in
particular `chapter1.txt` maps to `chapter1.mp3` and `file.txt.backup` to
`file.txt.mp3`.  `getOutputPath` is a pure Lean function of the source
path, hence deterministic. -/
theorem getOutputPath_replaces_final_extension :
    (∀ p : String, ∃ stem : String,
        p = stem ++ filepathExt p ∧ getOutputPath p = stem ++ ".mp3")
      ∧ getOutputPath "chapter1.txt" = "chapter1.mp3"
      ∧ getOutputPath "file.txt.backup" = "file.txt.mp3" := by
  refine ⟨getOutputPath_stem, ?_, ?_⟩ <;> decide

/-- C8: a job whose source file cannot be read produces a result carrying
the read error, issues no HTTP request, and performs no write. -/
theorem unreadable_source_read_error (p : String) (env : Env)
    (config : AppConfig) (h : env.fs0 p = none) :
    (jobResult env config p).Error = some (.readFile (env.readErrMsg p))
      ∧ (processSingleFile p env config).requests = []
      ∧ (processSingleFile p env config).writes = [] := by
  unfold jobResult processSingleFile
  rw [h]
  exact ⟨rfl, rfl, rfl⟩

/-- C8 witness: the missing file `missing.txt` under the echo endpoint. -/
theorem unreadable_source_read_error_witness :
    (jobResult envEcho cfg1 "missing.txt").Error
        = some (.readFile (envEcho.readErrMsg "missing.txt"))
      ∧ (processSingleFile "missing.txt" envEcho cfg1).requests = []
      ∧ (processSingleFile "missing.txt" envEcho cfg1).writes = [] :=
  unreadable_source_read_error "missing.txt" envEcho cfg1 (by decide)

/-- C10: whenever the source file is readable, exactly one request is
POSTed, to `{server_url}/synthesize`, and its JSON body consists of the
single `text` field holding the file contents - the `voice_description`
pointer is never set, so the key is omitted by `omitempty`. -/
theorem request_body_only_text_field (p : String) (env : Env)
    (config : AppConfig) (content : String) (h : env.fs0 p = some content) :
    (processSingleFile p env config).requests
      = [(config.ServerURL ++ "/synthesize",
          "\x7b\"text\":" ++ jsonEscapeString content ++ "\x7d")] := by
  unfold processSingleFile
  rw [h]
  dsimp only
  cases env.net (config.ServerURL ++ "/synthesize")
      (marshalSynthesizeRequest ⟨content, none⟩) with
  | netErr m t => rfl
  | resp status body bodyErr =>
    dsimp only
    by_cases hst : status = 200
    · rw [if_pos hst]
      cases bodyErr with
      | some e => rfl
      | none =>
        dsimp only
        cases env.writeErr (getOutputPath p) with
        | some e => rfl
        | none => rfl
    · rw [if_neg hst]
      rfl

/-- C10 witness: the job `a.txt` (contents `1`) under the echo endpoint. -/
theorem request_body_only_text_field_witness :
    (processSingleFile "a.txt" envEcho cfg1).requests
      = [(cfg1.ServerURL ++ "/synthesize",
          "\x7b\"text\":" ++ jsonEscapeString "1" ++ "\x7d")] :=
  request_body_only_text_field "a.txt" envEcho cfg1 "1" (by decide)

/-- C7: a response with a status other than 200 makes the job fail with the
server-status error; its rendered message carries the numeric status code
and the response body verbatim, and the job writes nothing. -/
theorem non200_server_error (p : String) (env : Env) (config : AppConfig)
    (content : String) (status : Nat) (body : String) (bodyErr : Option String)
    (hread : env.fs0 p = some content)
    (hnet : env.net (config.ServerURL ++ "/synthesize")
        (marshalSynthesizeRequest ⟨content, none⟩) = .resp status body bodyErr)
    (hst : status ≠ 200) :
    (processSingleFile p env config).error = some (.serverStatus status body)
      ∧ errorMessage (.serverStatus status body)
          = "server returned status " ++ toString status ++ ": " ++ body
      ∧ (processSingleFile p env config).writes = [] := by
  unfold processSingleFile
  rw [hread]
  dsimp only
  rw [hnet]
  dsimp only
  rw [if_neg hst]
  exact ⟨rfl, rfl, rfl⟩

/-- C7 witness: the all-500 endpoint answering `boom` on the job
`a.txt`. -/
theorem non200_server_error_witness :
    (processSingleFile "a.txt" env500 cfg1).error
        = some (.serverStatus 500 "boom")
      ∧ errorMessage (.serverStatus 500 "boom")
          = "server returned status " ++ toString 500 ++ ": " ++ "boom"
      ∧ (processSingleFile "a.txt" env500 cfg1).writes = [] :=
  non200_server_error "a.txt" env500 cfg1 "1" 500 "boom" none (by decide)
    rfl (by decide)

/-- C3 counterexample: a job whose HTTP call times out and a job whose
connection is refused end in errors of the *same* classification - both
come from the single `failed to send request` return site; the client
defines no separate timeout error type, so the claimed distinct
classifications do not exist. -/
theorem timeout_class_not_distinct :
    (processSingleFile "a.txt" envTimeoutCase cfg1).error
        = some (.sendRequest timeoutErrMsg)
      ∧ (processSingleFile "a.txt" envRefusedCase cfg1).error
        = some (.sendRequest refusedErrMsg)
      ∧ errClass (.sendRequest timeoutErrMsg)
        = errClass (.sendRequest refusedErrMsg) := by
  refine ⟨?_, ?_, rfl⟩ <;> decide

/-- C3 (amended): when the HTTP call fails - timing out or otherwise - the
job fails with the `failed to send request` wrapping of the transport
error; the timeout case carries the transport's timeout text inside that
message but shares its classification with every other network-level
failure. -/
theorem timeout_wrapped_as_request_failure (p : String) (env : Env)
    (config : AppConfig) (content m : String) (t : Bool)
    (hread : env.fs0 p = some content)
    (hnet : env.net (config.ServerURL ++ "/synthesize")
        (marshalSynthesizeRequest ⟨content, none⟩) = .netErr m t) :
    (processSingleFile p env config).error = some (.sendRequest m)
      ∧ errorMessage (.sendRequest m) = "failed to send request: " ++ m
      ∧ ∀ m2, errClass (.sendRequest m) = errClass (.sendRequest m2) := by
  unfold processSingleFile
  rw [hread]
  dsimp only
  rw [hnet]
  exact ⟨rfl, rfl, fun m2 => rfl⟩

/-- C3 amended witness: the timed-out call on `a.txt`. -/
theorem timeout_wrapped_as_request_failure_witness :
    (processSingleFile "a.txt" envTimeoutCase cfg1).error
        = some (.sendRequest timeoutErrMsg)
      ∧ errorMessage (.sendRequest timeoutErrMsg)
          = "failed to send request: " ++ timeoutErrMsg
      ∧ ∀ m2, errClass (.sendRequest timeoutErrMsg)
          = errClass (.sendRequest m2) :=
  timeout_wrapped_as_request_failure "a.txt" envTimeoutCase cfg1 "1"
    timeoutErrMsg true (by decide) rfl

/-- The four failure kinds of claim C4, all of which strike before the
write: a read failure, a request failure, a non-200 status, a body-read
failure. -/
def preWriteFailure : ProcError → Prop
  | .readFile _ => True
  | .sendRequest _ => True
  | .serverStatus _ _ => True
  | .readResponse _ => True
  | _ => False

/-- Full case characterization of `processSingleFile`: either the job
succeeded - the returned path is `getOutputPath` and exactly the response
body was written there - or it failed, the returned path is empty and
nothing was written. -/
theorem processSingleFile_cases (p : String) (env : Env) (config : AppConfig) :
    ((processSingleFile p env config).error = none
      ∧ (processSingleFile p env config).outputPath = getOutputPath p
      ∧ ∃ c, (processSingleFile p env config).writes = [(getOutputPath p, c)])
    ∨ ((processSingleFile p env config).error ≠ none
      ∧ (processSingleFile p env config).outputPath = ""
      ∧ (processSingleFile p env config).writes = []) := by
  unfold processSingleFile
  cases env.fs0 p with
  | none => exact Or.inr ⟨Option.some_ne_none _, rfl, rfl⟩
  | some content =>
    dsimp only
    cases env.net (config.ServerURL ++ "/synthesize")
        (marshalSynthesizeRequest ⟨content, none⟩) with
    | netErr m t => exact Or.inr ⟨Option.some_ne_none _, rfl, rfl⟩
    | resp status body bodyErr =>
      dsimp only
      by_cases hst : status = 200
      · rw [if_pos hst]
        cases bodyErr with
        | some e => exact Or.inr ⟨Option.some_ne_none _, rfl, rfl⟩
        | none =>
          dsimp only
          cases env.writeErr (getOutputPath p) with
          | some e => exact Or.inr ⟨Option.some_ne_none _, rfl, rfl⟩
          | none => exact Or.inl ⟨rfl, rfl, body, rfl⟩
      · rw [if_neg hst]
        exact Or.inr ⟨Option.some_ne_none _, rfl, rfl⟩

/-- C4: a job that fails before the write (read failure, request failure,
non-200 response, or body-read failure) performs no write at all, so the
file system - in particular any pre-existing file at the destination
path - is untouched.  The response bytes are fully buffered (`io.ReadAll`)
before `os.WriteFile` is reached, which the embedding reflects by ordering
the body read strictly before the write. -/
theorem failed_job_leaves_destination_untouched (p : String) (env : Env)
    (config : AppConfig) (e : ProcError)
    (herr : (processSingleFile p env config).error = some e)
    (hpre : preWriteFailure e) :
    (processSingleFile p env config).writes = []
      ∧ ∀ x, ((processSingleFile p env config).writes.foldl applyWrite env.fs0) x
          = env.fs0 x := by
  have hw : (processSingleFile p env config).writes = [] := by
    rcases processSingleFile_cases p env config with ⟨hn, _, _⟩ | ⟨_, _, h⟩
    · rw [hn] at herr
      exact Option.noConfusion herr
    · exact h
  refine ⟨hw, fun x => ?_⟩
  rw [hw]
  rfl

/-- C4 witness: the unreadable job `missing.txt`. -/
theorem failed_job_leaves_destination_untouched_witness :
    (processSingleFile "missing.txt" envEcho cfg1).writes = []
      ∧ ∀ x, ((processSingleFile "missing.txt" envEcho cfg1).writes.foldl
          applyWrite envEcho.fs0) x = envEcho.fs0 x :=
  failed_job_leaves_destination_untouched "missing.txt" envEcho cfg1
    (.readFile (envEcho.readErrMsg "missing.txt")) (by decide) trivial

/-- C9: the per-job invariant of the worker loop.  The result's error is
nil exactly when a destination file was written; on success `OutputPath`
is the written destination (`getOutputPath` of the source) and the
destination holds the written bytes; on any failure `OutputPath` is the
empty string and nothing was written. -/
theorem result_error_iff_written (p : String) (env : Env)
    (config : AppConfig) :
    ((jobResult env config p).Error = none
        ↔ ∃ c, (processSingleFile p env config).writes
            = [((jobResult env config p).OutputPath, c)])
      ∧ ((jobResult env config p).Error = none
        → (jobResult env config p).OutputPath = getOutputPath p
          ∧ ∃ c, ((processSingleFile p env config).writes.foldl applyWrite
              env.fs0) ((jobResult env config p).OutputPath) = some c)
      ∧ ((jobResult env config p).Error ≠ none
        → (jobResult env config p).OutputPath = ""
          ∧ (processSingleFile p env config).writes = []) := by
  have hE : (jobResult env config p).Error
      = (processSingleFile p env config).error := rfl
  have hO : (jobResult env config p).OutputPath
      = (processSingleFile p env config).outputPath := rfl
  rcases processSingleFile_cases p env config with
    ⟨hn, hout, c, hw⟩ | ⟨hn, hout, hw⟩
  · refine ⟨?_, ?_, ?_⟩
    · constructor
      · intro _
        exact ⟨c, by rw [hw, hO, hout]⟩
      · intro _
        rw [hE, hn]
    · intro _
      refine ⟨by rw [hO, hout], c, ?_⟩
      rw [hw, hO, hout]
      simp [applyWrite]
    · intro hne
      exact absurd (hE.trans hn) hne
  · refine ⟨?_, ?_, ?_⟩
    · constructor
      · intro h0
        exact absurd (hE.symm.trans h0) hn
      · intro ⟨c, hcw⟩
        rw [hw] at hcw
        exact List.noConfusion hcw
    · intro h0
      exact absurd (hE.symm.trans h0) hn
    · intro _
      exact ⟨hO.trans hout, hw⟩

/-- C9 witness: the successful job `a.txt` and the failing job
`missing.txt` under the echo endpoint. -/
theorem result_error_iff_written_witness :
    ((jobResult envEcho cfg1 "a.txt").OutputPath = getOutputPath "a.txt"
      ∧ ∃ c, ((processSingleFile "a.txt" envEcho cfg1).writes.foldl applyWrite
          envEcho.fs0) ((jobResult envEcho cfg1 "a.txt").OutputPath) = some c)
      ∧ ((jobResult envEcho cfg1 "missing.txt").OutputPath = ""
        ∧ (processSingleFile "missing.txt" envEcho cfg1).writes = []) := by
  constructor
  · exact (result_error_iff_written "a.txt" envEcho cfg1).2.1 (by decide)
  · exact (result_error_iff_written "missing.txt" envEcho cfg1).2.2 (by decide)

/-- C1: for every job list and valid config (`workers ≥ 1`), every possible
execution of `processFiles` returns exactly one `ProcessResult` per input
job: the result count equals the job count and the multiset of result
`FilePath`s is exactly the multiset of input paths (nothing dropped,
nothing duplicated).  The model quantifies over completed runs - `PoolRun`
contains only executions in which `wg.Wait` has returned and the results
channel has been drained, which is how the code's blocking guarantee
surfaces in the embedding. -/
theorem pool_returns_one_result_per_job (files : List String) (env : Env)
    (config : AppConfig) (r : PoolRun files env config)
    (hw : 1 ≤ config.Workers) :
    r.results.length = files.length
      ∧ Multiset.ofList (r.results.map fun pr => pr.FilePath)
          = Multiset.ofList files := by
  have hres := poolRun_results_coe r
  constructor
  · have hcard := congrArg Multiset.card hres
    rw [Multiset.coe_card, Multiset.coe_card] at hcard
    rw [hcard, List.length_map]
  · have hmap := congrArg (Multiset.map fun pr => pr.FilePath) hres
    rw [Multiset.map_coe, Multiset.map_coe] at hmap
    rw [hmap, List.map_map]
    have hid : (files.map ((fun pr => pr.FilePath) ∘ jobResult env config))
        = files := by
      have h1 : ∀ p ∈ files,
          ((fun pr => pr.FilePath) ∘ jobResult env config) p = id p :=
        fun p _ => rfl
      rw [List.map_congr_left h1, List.map_id]
    rw [hid]

/-- C1 witness: the single-job run under the echo endpoint. -/
theorem pool_returns_one_result_per_job_witness :
    runOne.results.length = (["a.txt"] : List String).length
      ∧ Multiset.ofList (runOne.results.map fun pr => pr.FilePath)
          = Multiset.ofList ["a.txt"] :=
  pool_returns_one_result_per_job ["a.txt"] envEcho cfg1 runOne (by decide)

/-- C6 (amended): with a deterministic endpoint, a one-worker run and a
`K > 1`-worker run over the same jobs and the same config-but-workers
produce the same multiset of `ProcessResult`s; and *provided no two
distinct jobs share a destination path*, they also leave identical
destination file contents.  (The unamended claim also asserted equal
contents when destinations collide, which the counterexample below
refutes.) -/
theorem pool_schedule_invariant (env : Env) (files : List String)
    (cfgA cfgB : AppConfig) (rA : PoolRun files env cfgA)
    (rB : PoolRun files env cfgB)
    (hurl : cfgA.ServerURL = cfgB.ServerURL)
    (hA : cfgA.Workers = 1) (hB : 1 < cfgB.Workers) :
    Multiset.ofList rA.results = Multiset.ofList rB.results
      ∧ (files.Pairwise (fun p q => getOutputPath p = getOutputPath q → p = q)
        → ∀ x, fsFinal rA x = fsFinal rB x) := by
  have hjr : files.map (jobResult env cfgA) = files.map (jobResult env cfgB) :=
    List.map_congr_left fun p _ => jobResult_congr p env hurl
  have hjw : files.map (jobWrites env cfgA) = files.map (jobWrites env cfgB) :=
    List.map_congr_left fun p _ => jobWrites_congr p env hurl
  have hwA := poolRun_writes_coe rA
  rw [hjw] at hwA
  have hwB := poolRun_writes_coe rB
  constructor
  · rw [poolRun_results_coe rA, poolRun_results_coe rB, hjr]
  · intro hinj x
    have hperm : Multiset.ofList rA.writeSeq = Multiset.ofList rB.writeSeq := by
      rw [hwA, hwB]
    have hmemA : ∀ a : String × String, a ∈ rA.writeSeq
        → a ∈ (files.map (jobWrites env cfgB)).flatten := by
      intro a ha
      have h1 : a ∈ Multiset.ofList rA.writeSeq := ha
      rw [hwA] at h1
      exact h1
    have hcons : ∀ a ∈ rA.writeSeq, ∀ b ∈ rA.writeSeq,
        a.1 = b.1 → a.2 = b.2 := by
      intro a ha b hb hab
      rcases List.mem_flatten.1 (hmemA a ha) with ⟨la, hla, hala⟩
      rcases List.mem_flatten.1 (hmemA b hb) with ⟨lb, hlb, hblb⟩
      rcases List.mem_map.1 hla with ⟨pa, hpa, rfl⟩
      rcases List.mem_map.1 hlb with ⟨pb, hpb, rfl⟩
      rcases jobWrites_shape env cfgB pa with hsa | ⟨ca, hsa⟩
      · rw [hsa] at hala
        exact absurd hala (List.not_mem_nil a)
      · rcases jobWrites_shape env cfgB pb with hsb | ⟨cb, hsb⟩
        · rw [hsb] at hblb
          exact absurd hblb (List.not_mem_nil b)
        · rw [hsa] at hala
          rw [hsb] at hblb
          have ha2 : a = (getOutputPath pa, ca) := List.mem_singleton.1 hala
          have hb2 : b = (getOutputPath pb, cb) := List.mem_singleton.1 hblb
          have hout : getOutputPath pa = getOutputPath pb := by
            rw [ha2, hb2] at hab
            exact hab
          have hpq : pa = pb := pairwise_out_inj hinj pa hpa pb hpb hout
          subst hpq
          have hcc : ca = cb := by
            rw [hsa] at hsb
            simpa using hsb
          rw [ha2, hb2, hcc]
    exact foldl_applyWrite_eq_of env.fs0 hperm hcons x

/-- C6 amended witness: the single job `a.txt` run with one worker and with
two workers. -/
theorem pool_schedule_invariant_witness :
    Multiset.ofList runOne.results = Multiset.ofList runOneW2.results
      ∧ fsFinal runOne "a.mp3" = fsFinal runOneW2 "a.mp3" := by
  have h := pool_schedule_invariant envEcho ["a.txt"] cfg1 cfg2 runOne runOneW2
    rfl rfl (by decide)
  exact ⟨h.1, h.2 (by simp) "a.mp3"⟩

/-- C6 counterexample: two jobs (`a.txt`, `a.TXT`) collide on the
destination `a.mp3`.  Under the same deterministic echo endpoint, the only
one-worker run leaves the second job's bytes there, while a legitimate
two-worker schedule (worker 2 writing first) leaves the first job's bytes:
the destination contents depend on the worker count, refuting the claim as
stated. -/
theorem worker_count_changes_file_contents :
    cfg1.Workers = 1 ∧ cfg2.Workers = 2
      ∧ fsFinal runSeq "a.mp3" = some "\x7b\"text\":\"2\"\x7d"
      ∧ fsFinal runSwap "a.mp3" = some "\x7b\"text\":\"1\"\x7d"
      ∧ fsFinal runSeq "a.mp3" ≠ fsFinal runSwap "a.mp3" := by
  refine ⟨rfl, rfl, ?_, ?_, ?_⟩ <;> decide

/-- C2 (code bug evidence): with two discovered jobs and an endpoint that
answers 500 to everything, every job fails (`countSuccessful` is zero),
yet `run` still returns nil - its only error path is a scan failure - and
`main` therefore exits with status 0.  The documented mapping (exit 2 when
all jobs fail, exit 1 on partial failure) is not implemented: the exit
status after a successful scan is 0 regardless of the per-job outcomes. -/
theorem exit_status_ignores_job_failures :
    (jobResult env500 cfg2 "a.txt").Error = some (.serverStatus 500 "boom")
      ∧ (jobResult env500 cfg2 "a.TXT").Error = some (.serverStatus 500 "boom")
      ∧ countSuccessful (filesAA.map (jobResult env500 cfg2)) = 0
      ∧ runReturn (.ok filesAA) = none
      ∧ runExitCode (.ok filesAA) = 0 := by
  refine ⟨?_, ?_, ?_, rfl, rfl⟩ <;> decide
